import Mathlib

/-!
Verification development for the car-manual retrieval backend.

The definitions below are a shallow embedding of the Python sources:

* `app/db/repositories/search.py` — the explicit Reciprocal Rank Fusion
  engine (`SearchRepository.hybrid_search_rrf` together with its fallback
  score lookups `calculate_vector_score` / `calculate_text_score`, which we
  model as oracles since they query the database);
* `app/db/repositories/search_new.py` — the `$rankFusion`-based repository
  (its Python-level surface: the keyword parameters of `hybrid_search_rrf`
  and the result post-processing of `text_search`);
* `app/api/routes/search.py` — the `/hybrid` route handler, including its
  debug-flag handling and exception handling;
* `app/models/search.py` — the pydantic request models.

Python floats are modelled as exact rationals (`ℚ`); Python dicts are
modelled with their insertion semantics (a later binding for the same key
overwrites an earlier one); Python's stable `list.sort` is modelled by
`List.insertionSort`, which is stable.
-/

/-- A stored chunk; the fusion engine only ever reads its `id`
(`result.chunk.id` in `search.py`). -/
structure Chunk where
  id : String
deriving DecidableEq, Repr

/-- `app/models/search.py` `SearchResult`, restricted to the fields the old
repository (`search.py`) reads and writes: `score`, `vector_score`,
`text_score` and the embedded `chunk`. -/
structure SearchResult where
  score : ℚ
  vector_score : Option ℚ := none
  text_score : Option ℚ := none
  chunk : Chunk
deriving DecidableEq, Repr

/-- `app/models/search.py` `SearchResult` as produced by the new repository
(`search_new.py`), which fills `chunk_id`/`text` instead of `chunk`. -/
structure SearchResultN where
  score : ℚ
  vector_score : Option ℚ := none
  text_score : Option ℚ := none
  raw_score : Option ℚ := none
  chunk_id : Option String := none
  text : String := ""
deriving DecidableEq, Repr

/-- Lookup in a Python dict built from an association list by successive
assignment: a later binding for the same key overwrites an earlier one. -/
def dictGet {β : Type} : List (String × β) → String → Option β
  | [], _ => none
  | p :: t, key =>
    (dictGet t key).elim (if p.1 = key then some p.2 else none) some

/-- `enumerate(xs, start)`: pair every element with its index, as key/value
pairs `(element, index)` ready for a dict comprehension. -/
def enumPairs {α : Type} : ℕ → List α → List (α × ℕ)
  | _, [] => []
  | i, a :: t => (a, i) :: enumPairs (i + 1) t

/-- The ids of a result list, in order (`result.chunk.id for result in rs`). -/
def idsOf (rs : List SearchResult) : List String :=
  rs.map (fun r => r.chunk.id)

/-- `{result.chunk.id: result for result in rs}` as an association list. -/
def chunkPairs (rs : List SearchResult) : List (String × SearchResult) :=
  rs.map (fun r => (r.chunk.id, r))

/-- `{chunk_id: i for i, chunk_id in enumerate(ids)}` as an association
list. -/
def rankPairs (ids : List String) : List (String × ℕ) :=
  enumPairs 0 ids

/-- Deduplication keeping the first occurrence of every element, with an
accumulator of elements already emitted. -/
def dedupFirstAux (seen : List String) : List String → List String
  | [] => []
  | a :: t => if a ∈ seen then dedupFirstAux seen t else a :: dedupFirstAux (a :: seen) t

/-- Deduplication keeping first occurrences.  Models the id set
`set(vector_chunks.keys()) | set(text_chunks.keys())` of `search.py`,
iterated in a deterministic first-seen order. -/
def dedupFirst (l : List String) : List String :=
  dedupFirstAux [] l

/-- The union of chunk ids over the two input rankings (`all_chunk_ids` in
`hybrid_search_rrf`). -/
def allChunkIds (vr tr : List SearchResult) : List String :=
  dedupFirst (idsOf vr ++ idsOf tr)

/-- Python's `max(iterable, default=d)`. -/
def maxOrDefault (d : ℚ) : List ℚ → ℚ
  | [] => d
  | a :: t => t.foldl max a

/-- The value dict stored in `result_map[chunk_id]` by `hybrid_search_rrf`
(`search.py`, lines 237-242): chunk data, both component scores, and the
accumulated reciprocal-rank-fusion score. -/
structure FusedEntry where
  chunk : Chunk
  vector_score : Option ℚ
  text_score : Option ℚ
  rrf_score : ℚ
deriving DecidableEq, Repr

/-- The body of the `for chunk_id in all_chunk_ids` loop of
`hybrid_search_rrf` (`search.py`, lines 213-242) for one chunk id.
`vo`/`to` are the fallback lookups `calculate_vector_score` /
`calculate_text_score` (database queries, modelled as oracles).
Python branches on `chunk_id in vector_chunks` and then indexes
`vector_rank[chunk_id]`; the two dicts are built from the same list and have
the same keys, so the rank lookup is made total here with `getD 0`
(the default is unreachable when the branch is taken).  Likewise the
`chunk` selection indexes `text_chunks[chunk_id]` only when the id came
from one of the two lists, so its final `getD` default is unreachable. -/
def mkFusedEntry (vo : String → ℚ) (tto : String → ℚ) (vr tr : List SearchResult)
    (k : ℕ) (id : String) : FusedEntry :=
  let vres := dictGet (chunkPairs vr) id
  let tres := dictGet (chunkPairs tr) id
  let vrank := dictGet (rankPairs (idsOf vr)) id
  let trank := dictGet (rankPairs (idsOf tr)) id
  { chunk := (vres.map fun r => r.chunk).getD ((tres.map fun r => r.chunk).getD { id := id })
    vector_score := vres.elim (some (vo id)) (fun r => r.vector_score)
    text_score := tres.elim (some (tto id)) (fun r => r.text_score)
    rrf_score :=
      (if vres.isSome then 1 / ((k : ℚ) + ((vrank.getD 0 : ℕ) : ℚ)) else 0) +
      (if tres.isSome then 1 / ((k : ℚ) + ((trank.getD 0 : ℕ) : ℚ)) else 0) }

/-- The fully populated `result_map` of `hybrid_search_rrf`, in the
deterministic first-seen iteration order of `allChunkIds`. -/
def fusedEntries (vo tto : String → ℚ) (vr tr : List SearchResult) (k : ℕ) :
    List FusedEntry :=
  (allChunkIds vr tr).map (mkFusedEntry vo tto vr tr k)

/-- One entry of `combined_results` (`search.py`, lines 249-258): the RRF
score is normalised by the maximum RRF score `m` when that maximum is
positive, otherwise set to `0.0`. -/
def toSearchResult (m : ℚ) (e : FusedEntry) : SearchResult :=
  { score := if 0 < m then e.rrf_score / m else 0
    vector_score := e.vector_score
    text_score := e.text_score
    chunk := e.chunk }

/-- Python's `list.sort(key=..., reverse=True)`: a stable descending sort,
modelled by stable insertion sort (Python's `list.sort` is stable; a stable
sort is extensionally determined by the comparison, so any stable sort
models it). -/
def pySortDescBy {α : Type} (key : α → ℚ) (l : List α) : List α :=
  List.insertionSort (fun a b => key b ≤ key a) l

/-- `SearchRepository.hybrid_search_rrf` of `search.py` (lines 197-262):
build `result_map` over the union of chunk ids, normalise the RRF scores by
their maximum (default `1.0` on an empty map), and stably sort the results
by normalised score, descending.  `vo`/`to` model the database-backed
fallback lookups `calculate_vector_score(chunk_id, embedding)` and
`calculate_text_score(chunk_id, query)`. -/
def hybrid_search_rrf (vo : String → List ℚ → ℚ) (tto : String → String → ℚ)
    (vector_results text_results : List SearchResult) (query : String)
    (embedding : List ℚ) (k : ℕ) : List SearchResult :=
  let entries := fusedEntries (fun id => vo id embedding) (fun id => tto id query)
    vector_results text_results k
  let m := maxOrDefault 1 (entries.map (fun e => e.rrf_score))
  let results := entries.map (toSearchResult m)
  pySortDescBy (fun r => r.score) results

/-- The concrete Vector Ranked List of the spec scenario in §8:
`[(X, rank 0), (Y, rank 1)]`. -/
def vListXY : List SearchResult :=
  [{ score := 9/10, vector_score := some (9/10), chunk := { id := "X" } },
   { score := 8/10, vector_score := some (8/10), chunk := { id := "Y" } }]

/-- The concrete Text Ranked List of the spec scenario in §8:
`[(Y, rank 0), (Z, rank 1)]`. -/
def tListYZ : List SearchResult :=
  [{ score := 1, text_score := some 1, chunk := { id := "Y" } },
   { score := 1/2, text_score := some (1/2), chunk := { id := "Z" } }]

/-- A vector-score fallback oracle that always reports `0.0`. -/
def zeroVecOracle : String → List ℚ → ℚ := fun _ _ => 0

/-- A text-score fallback oracle that always reports `0.0` (the database
finds no text match for any chunk). -/
def zeroTextOracle : String → String → ℚ := fun _ _ => 0

/-- A text-score fallback oracle that always reports `0.5` (the database
finds a text match for every chunk). -/
def halfTextOracle : String → String → ℚ := fun _ _ => 1/2

/-! ### Spec-side formula, scaling, and further concrete data -/

/-- Spec-side combined score (refinement comparison), following §4.2 of the
spec but with the weight factors removed: the sum, over each ranking that
contains the id, of the reciprocal `1 / (rrf_k + rank)` of its 0-based rank
there. -/
def specCombinedScore (vr tr : List SearchResult) (k : ℕ) (id : String) : ℚ :=
  (if id ∈ idsOf vr then 1 / ((k : ℚ) + (List.indexOf id (idsOf vr) : ℚ)) else 0) +
  (if id ∈ idsOf tr then 1 / ((k : ℚ) + (List.indexOf id (idsOf tr) : ℚ)) else 0)

/-- Multiply the raw scores carried by one search result by a constant
(the chunk, and hence the id, is untouched). -/
def scaleResult (c : ℚ) (r : SearchResult) : SearchResult :=
  { r with score := c * r.score, vector_score := r.vector_score.map (fun s => c * s) }

/-- Multiply every raw score carried by a Vector Ranked List by a constant
(the order and ids of the list are untouched). -/
def scaleVectorScores (c : ℚ) (rs : List SearchResult) : List SearchResult :=
  rs.map (scaleResult c)

/-- A one-element Vector Ranked List used as concrete data. -/
def oneVecA : List SearchResult :=
  [{ score := 9/10, vector_score := some (9/10), chunk := { id := "A" } }]

/-- Ten distinct candidates as a Vector Ranked List (concrete data for the
truncation claim: ten candidates survive fusion). -/
def tenVec : List SearchResult :=
  [{ score := 10/10, vector_score := some (10/10), chunk := { id := "c0" } },
   { score := 9/10, vector_score := some (9/10), chunk := { id := "c1" } },
   { score := 8/10, vector_score := some (8/10), chunk := { id := "c2" } },
   { score := 7/10, vector_score := some (7/10), chunk := { id := "c3" } },
   { score := 6/10, vector_score := some (6/10), chunk := { id := "c4" } },
   { score := 5/10, vector_score := some (5/10), chunk := { id := "c5" } },
   { score := 4/10, vector_score := some (4/10), chunk := { id := "c6" } },
   { score := 3/10, vector_score := some (3/10), chunk := { id := "c7" } },
   { score := 2/10, vector_score := some (2/10), chunk := { id := "c8" } },
   { score := 1/10, vector_score := some (1/10), chunk := { id := "c9" } }]

/-! ### The new repository (`search_new.py`): call surface and result
processing -/

/-- One document as returned by the `text_search` aggregation pipeline of
`search_new.py` (after its `$project` stage). -/
structure TextSearchDoc where
  score : ℚ
  chunk_id : Option String := none
  text : String := ""
deriving DecidableEq, Repr

/-- The result-processing loop of `SearchRepository.text_search`
(`search_new.py`, lines 259-273): each pipeline document becomes a
`SearchResult` whose `score` and `text_score` are the document score. -/
def processTextSearchResults (docs : List TextSearchDoc) : List SearchResultN :=
  docs.map (fun d =>
    { score := d.score, text_score := some d.score, chunk_id := d.chunk_id,
      text := d.text })

/-- The keyword parameters accepted by
`SearchRepository.hybrid_search_rrf` in `search_new.py` (lines 310-319);
the function has no `**kwargs` catch-all. -/
def hybridSearchRRFParamNames : List String :=
  ["query_text", "query_embedding", "limit", "vector_weight", "text_weight",
   "num_candidates_multiplier", "use_native_rankfusion"]

/-- The keyword arguments the `/hybrid` route passes to
`search_repo.hybrid_search_rrf` (`app/api/routes/search.py`, lines
259-267). -/
def routeHybridKwargs : List String :=
  ["query_text", "query_embedding", "limit", "vector_weight", "text_weight",
   "num_candidates_multiplier", "rrf_k"]

/-- Python call semantics for `hybrid_search_rrf`: binding the given keyword
arguments against the signature of `search_new.py`.  A keyword argument the
signature does not accept raises `TypeError` before the body runs; otherwise
the body (an opaque database interaction, passed as `body`) produces the
result. -/
def callHybridSearchRRF (kwargs : List String) (body : List SearchResultN) :
    Except String (List SearchResultN) :=
  match kwargs.find? (fun kw => !(hybridSearchRRFParamNames.contains kw)) with
  | some kw => .error ("hybrid_search_rrf() got an unexpected keyword argument " ++ kw)
  | none => .ok body

/-! ### The `/hybrid` route handler (`app/api/routes/search.py`) -/

/-- `HybridSearchRequest` of `app/models/search.py` (lines 50-75). -/
structure HybridSearchRequest where
  query : String
  limit : ℕ := 5
  rrf_k : ℕ := 60
  vector_weight : ℚ := 1/2
  text_weight : ℚ := 1/2
  num_candidates_multiplier : ℕ := 15
deriving DecidableEq, Repr

/-- The pydantic validation constraints on `HybridSearchRequest`
(`ge`/`le` bounds of its `Field` declarations). -/
def validHybridRequest (r : HybridSearchRequest) : Prop :=
  1 ≤ r.limit ∧ r.limit ≤ 20 ∧ 1 ≤ r.rrf_k ∧ r.rrf_k ≤ 100 ∧
  0 ≤ r.vector_weight ∧ r.vector_weight ≤ 1 ∧
  0 ≤ r.text_weight ∧ r.text_weight ≤ 1 ∧
  1 ≤ r.num_candidates_multiplier ∧ r.num_candidates_multiplier ≤ 50

instance (r : HybridSearchRequest) : Decidable (validHybridRequest r) := by
  unfold validHybridRequest
  infer_instance

/-- Field model of a pydantic request class: field name together with its
declared type (an enumerated field carries its list of allowed values). -/
inductive PFieldType where
  | intF : PFieldType
  | floatF : PFieldType
  | strF : PFieldType
  | enumF : List String → PFieldType
deriving DecidableEq, Repr

/-- The declared fields of `HybridSearchRequest` (`app/models/search.py`,
lines 23-27 for the inherited `SearchRequest` fields and lines 50-75): the
complete per-request configuration surface of the `/hybrid` endpoint. -/
def hybridSearchRequestFields : List (String × PFieldType) :=
  [("query", .strF), ("limit", .intF), ("rrf_k", .intF),
   ("vector_weight", .floatF), ("text_weight", .floatF),
   ("num_candidates_multiplier", .intF)]

/-- `get_debug_flag` (`app/api/routes/search.py`, lines 16-18): debug mode
is on exactly when the `X-Debug` header is present and equals `"true"`
case-insensitively. -/
def getDebugFlag (xDebug : Option String) : Bool :=
  match xDebug with
  | none => false
  | some s => s.toLower == "true"

/-- Debug info entries collected by the route handler. -/
abbrev DebugInfo := List (String × String)

/-- Possible outcomes of one request against the route handler. -/
inductive RouteOutcome where
  /-- A well-formed `SearchResponse`. -/
  | response (query : String) (method : String) (results : List SearchResultN)
      (total : ℕ) (debug_info : Option DebugInfo) : RouteOutcome
  /-- A raised `HTTPException` (status 500 in this handler). -/
  | httpError (detail : String) : RouteOutcome
  /-- An exception escaping the handler entirely (e.g. a `TypeError` raised
  inside the `except` block itself); surfaces as a generic server error with
  no response body from the handler. -/
  | serverError : RouteOutcome
deriving DecidableEq, Repr

/-- The `except Exception` block of the `/hybrid` handler
(`app/api/routes/search.py`, lines 292-309), entered with the message of the
exception: when `debug_mode` is set it assigns into `debug_info` (raising
`TypeError` if `debug_info` is `None`, which nothing catches) and returns an
empty well-formed response; otherwise it raises `HTTPException(500)`. -/
def hybridExceptBlock (debugMode : Bool) (debugInfo : Option DebugInfo)
    (query : String) (msg : String) : RouteOutcome :=
  if debugMode then
    match debugInfo with
    | some d => .response query "hybrid_rrf" [] 0
        (some (d ++ [("error", msg), ("traceback", msg)]))
    | none => .serverError
  else .httpError msg

/-- The `/hybrid` route handler `hybrid_search`
(`app/api/routes/search.py`, lines 189-309).  `collectionAvailable` models
the repository collection check, `embedding` the value produced by the
embedding service, and `repoResults` what the repository body would return
if the call to it bound successfully.  Note line 220 (`debug_mode = True`)
runs after `debug_info` was already initialised from the caller's header. -/
def hybridSearchRoute (req : HybridSearchRequest) (xDebug : Option String)
    (collectionAvailable : Bool) (embedding : List ℚ)
    (repoResults : List SearchResultN) : RouteOutcome :=
  let debugMode0 := getDebugFlag xDebug
  let debugInfo : Option DebugInfo :=
    if debugMode0 then some [("request", req.query)] else none
  -- line 220: debug_mode = True
  let debugMode := true
  if !collectionAvailable then
    -- lines 226-238: `if debug_mode: debug_info["error"] = ...` (a TypeError
    -- on a `None` debug_info propagates to the except block), then an empty
    -- well-formed response
    match debugInfo with
    | some d => .response req.query "hybrid_rrf" [] 0
        (some (d ++ [("error", "MongoDB collection is not available")]))
    | none => hybridExceptBlock debugMode debugInfo req.query
        "Error in hybrid search: TypeError"
  else if embedding.isEmpty then
    -- lines 244-256: same shape for a failed embedding
    match debugInfo with
    | some d => .response req.query "hybrid_rrf" [] 0
        (some (d ++ [("error", "Failed to generate embedding for query")]))
    | none => hybridExceptBlock debugMode debugInfo req.query
        "Error in hybrid search: TypeError"
  else
    -- lines 258-290: the repository call and the success path
    match callHybridSearchRRF routeHybridKwargs repoResults with
    | .ok results => .response req.query "hybrid_rrf" results results.length debugInfo
    | .error e => hybridExceptBlock debugMode debugInfo req.query
        ("Error in hybrid search: " ++ e)

/-- Whether a route outcome carries debug information. -/
def hasDebugInfo : RouteOutcome → Bool
  | .response _ _ _ _ (some _) => true
  | _ => false

/-! ### Helper lemmas about the Python-dict and list models -/

theorem dictGet_mem {β : Type} {l : List (String × β)} {key : String} {v : β}
    (h : dictGet l key = some v) : (key, v) ∈ l := by
  induction l with
  | nil => simp [dictGet] at h
  | cons p t ih =>
    simp only [dictGet] at h
    cases ht : dictGet t key with
    | some w =>
      rw [ht] at h
      simp only [Option.elim_some] at h
      exact List.mem_cons_of_mem _ (ih (ht.trans h))
    | none =>
      rw [ht] at h
      simp only [Option.elim_none] at h
      split at h
      · rename_i hk
        have hv : p.2 = v := Option.some.inj h
        have hp : p = (key, v) := by
          obtain ⟨p1, p2⟩ := p
          simp only [Prod.mk.injEq]
          exact ⟨hk, hv⟩
        rw [← hp]
        exact List.mem_cons_self p t
      · cases h

theorem dictGet_isSome_iff {β : Type} (l : List (String × β)) (key : String) :
    (dictGet l key).isSome = true ↔ key ∈ l.map Prod.fst := by
  induction l with
  | nil => simp [dictGet]
  | cons p t ih =>
    simp only [dictGet, List.map_cons, List.mem_cons]
    cases ht : dictGet t key with
    | some w =>
      simp only [Option.elim_some, Option.isSome_some, true_iff]
      exact Or.inr (ih.mp (by rw [ht]; rfl))
    | none =>
      simp only [Option.elim_none]
      rw [ht] at ih
      simp only [Option.isSome_none, Bool.false_eq_true, false_iff] at ih
      constructor
      · intro h
        split at h
        · rename_i hk
          exact Or.inl hk.symm
        · simp at h
      · intro h
        rcases h with h | h
        · simp [h]
        · exact absurd h ih

theorem dictGet_eq_none_iff {β : Type} (l : List (String × β)) (key : String) :
    dictGet l key = none ↔ key ∉ l.map Prod.fst := by
  rw [← dictGet_isSome_iff]
  cases dictGet l key <;> simp

theorem dictGet_enumPairs_of_nodup {ids : List String} (h : ids.Nodup)
    (n : ℕ) (key : String) :
    dictGet (enumPairs n ids) key =
      if key ∈ ids then some (n + ids.indexOf key) else none := by
  induction ids generalizing n with
  | nil => simp [enumPairs, dictGet]
  | cons a t ih =>
    have ha : a ∉ t := (List.nodup_cons.mp h).1
    have ht : t.Nodup := (List.nodup_cons.mp h).2
    simp only [enumPairs, dictGet]
    rw [ih ht (n + 1)]
    by_cases hk : key ∈ t
    · have hak : a ≠ key := fun hc => ha (hc ▸ hk)
      simp only [hk, if_true, Option.elim_some]
      rw [if_pos (List.mem_cons_of_mem a hk)]
      rw [List.indexOf_cons_ne _ (by exact hak)]
      congr 1
      omega
    · simp only [hk, if_false, Option.elim_none]
      by_cases hak : a = key
      · rw [if_pos hak, if_pos (by exact hak ▸ List.mem_cons_self a t)]
        subst hak
        rw [List.indexOf_cons_self]
        simp
      · rw [if_neg hak, if_neg (by
          intro hc
          rcases List.mem_cons.mp hc with hc | hc
          · exact hak hc.symm
          · exact hk hc)]

theorem keys_chunkPairs (rs : List SearchResult) :
    (chunkPairs rs).map Prod.fst = idsOf rs := by
  simp [chunkPairs, idsOf, List.map_map, Function.comp]

theorem keys_rankPairs (ids : List String) (n : ℕ) :
    (enumPairs n ids).map Prod.fst = ids := by
  induction ids generalizing n with
  | nil => rfl
  | cons a t ih => simp [enumPairs, ih]

theorem dictGet_chunkPairs_isSome (rs : List SearchResult) (id : String) :
    (dictGet (chunkPairs rs) id).isSome = true ↔ id ∈ idsOf rs := by
  rw [dictGet_isSome_iff, keys_chunkPairs]

theorem dictGet_rankPairs_isSome (ids : List String) (id : String) :
    (dictGet (rankPairs ids) id).isSome = true ↔ id ∈ ids := by
  rw [dictGet_isSome_iff, rankPairs, keys_rankPairs]

theorem dictGet_chunkPairs_chunk_id {rs : List SearchResult} {id : String}
    {r : SearchResult} (h : dictGet (chunkPairs rs) id = some r) :
    r.chunk.id = id := by
  have hm := dictGet_mem h
  simp only [chunkPairs, List.mem_map] at hm
  obtain ⟨s, _, hs⟩ := hm
  have h1 : s.chunk.id = id := congrArg Prod.fst hs
  have h2 : s = r := congrArg Prod.snd hs
  rw [← h2]
  exact h1

theorem mem_dedupFirstAux {a : String} {seen : List String} {l : List String} :
    a ∈ dedupFirstAux seen l ↔ a ∈ l ∧ a ∉ seen := by
  induction l generalizing seen with
  | nil => simp [dedupFirstAux]
  | cons b t ih =>
    simp only [dedupFirstAux]
    by_cases hb : b ∈ seen
    · rw [if_pos hb, ih]
      constructor
      · intro ⟨h1, h2⟩
        exact ⟨List.mem_cons_of_mem b h1, h2⟩
      · intro ⟨h1, h2⟩
        rcases List.mem_cons.mp h1 with rfl | h1
        · exact absurd hb h2
        · exact ⟨h1, h2⟩
    · rw [if_neg hb]
      simp only [List.mem_cons, ih, List.mem_cons]
      constructor
      · rintro (rfl | ⟨h1, h2⟩)
        · exact ⟨Or.inl rfl, hb⟩
        · exact ⟨Or.inr h1, fun hc => h2 (Or.inr hc)⟩
      · rintro ⟨rfl | h1, h2⟩
        · exact Or.inl rfl
        · by_cases hab : a = b
          · exact Or.inl hab
          · exact Or.inr ⟨h1, fun hc => hc.elim (fun hx => hab hx) (fun hx => h2 hx)⟩

theorem mem_dedupFirst {a : String} {l : List String} :
    a ∈ dedupFirst l ↔ a ∈ l := by
  rw [dedupFirst, mem_dedupFirstAux]
  simp

theorem dedupFirstAux_eq_self {l : List String} (h : l.Nodup) :
    ∀ seen : List String, (∀ a ∈ l, a ∉ seen) → dedupFirstAux seen l = l := by
  induction l with
  | nil => intro seen _; rfl
  | cons b t ih =>
    intro seen hs
    have hb : b ∉ seen := hs b (List.mem_cons_self b t)
    simp only [dedupFirstAux, if_neg hb]
    congr 1
    exact ih (List.nodup_cons.mp h).2 (b :: seen) (fun a ha => by
      intro hc
      rcases List.mem_cons.mp hc with rfl | hc
      · exact (List.nodup_cons.mp h).1 ha
      · exact hs a (List.mem_cons_of_mem b ha) hc)

theorem dedupFirst_eq_self {l : List String} (h : l.Nodup) : dedupFirst l = l :=
  dedupFirstAux_eq_self h [] (by simp)

theorem le_foldl_max (a : ℚ) (t : List ℚ) : a ≤ t.foldl max a := by
  induction t generalizing a with
  | nil => exact le_refl a
  | cons b t ih => exact le_trans (le_max_left a b) (ih (max a b))

theorem mem_le_foldl_max {x : ℚ} {t : List ℚ} (h : x ∈ t) (a : ℚ) :
    x ≤ t.foldl max a := by
  induction t generalizing a with
  | nil => cases h
  | cons b t ih =>
    rcases List.mem_cons.mp h with rfl | h
    · exact le_trans (le_max_right a x) (le_foldl_max _ t)
    · exact ih h (max a b)

theorem le_maxOrDefault_of_mem {x : ℚ} {l : List ℚ} (h : x ∈ l) (d : ℚ) :
    x ≤ maxOrDefault d l := by
  cases l with
  | nil => cases h
  | cons a t =>
    rcases List.mem_cons.mp h with rfl | h
    · exact le_foldl_max x t
    · exact mem_le_foldl_max h a

theorem maxOrDefault_pos {l : List ℚ} (hne : l ≠ []) (h : ∀ x ∈ l, 0 < x)
    (d : ℚ) : 0 < maxOrDefault d l := by
  cases l with
  | nil => exact absurd rfl hne
  | cons a t =>
    exact lt_of_lt_of_le (h a (List.mem_cons_self a t))
      (le_maxOrDefault_of_mem (List.mem_cons_self a t) d)

/-! ### Lemmas about fused entries -/

theorem mkFusedEntry_chunk_id (vo tto : String → ℚ) (vr tr : List SearchResult)
    (k : ℕ) (id : String) : (mkFusedEntry vo tto vr tr k id).chunk.id = id := by
  simp only [mkFusedEntry]
  cases hv : dictGet (chunkPairs vr) id with
  | some r =>
    have h := dictGet_chunkPairs_chunk_id hv
    simpa using h
  | none =>
    cases ht : dictGet (chunkPairs tr) id with
    | some r =>
      have h := dictGet_chunkPairs_chunk_id ht
      simpa using h
    | none => simp

theorem fusedEntries_ids (vo tto : String → ℚ) (vr tr : List SearchResult) (k : ℕ) :
    (fusedEntries vo tto vr tr k).map (fun e => e.chunk.id) = allChunkIds vr tr := by
  rw [fusedEntries, List.map_map]
  have h : ((fun e => e.chunk.id) ∘ mkFusedEntry vo tto vr tr k) = fun id => id :=
    funext (fun id => mkFusedEntry_chunk_id vo tto vr tr k id)
  rw [h]
  simp

theorem mkFusedEntry_rrf_pos {k : ℕ} (hk : 1 ≤ k) (vo tto : String → ℚ)
    (vr tr : List SearchResult) {id : String}
    (hid : id ∈ idsOf vr ∨ id ∈ idsOf tr) :
    0 < (mkFusedEntry vo tto vr tr k id).rrf_score := by
  have hkq : (1 : ℚ) ≤ (k : ℚ) := by exact_mod_cast hk
  have hpos : ∀ n : ℕ, 0 < (1 : ℚ) / ((k : ℚ) + (n : ℚ)) := by
    intro n
    apply div_pos one_pos
    have : (0 : ℚ) ≤ (n : ℚ) := Nat.cast_nonneg n
    linarith
  have hnonneg : ∀ (o : Option SearchResult) (p : Option ℕ),
      0 ≤ (if o.isSome then (1 : ℚ) / ((k : ℚ) + ((p.getD 0 : ℕ) : ℚ)) else 0) := by
    intro o p
    split
    · exact le_of_lt (hpos _)
    · exact le_refl 0
  simp only [mkFusedEntry]
  rcases hid with h | h
  · have hs : (dictGet (chunkPairs vr) id).isSome = true :=
      (dictGet_chunkPairs_isSome vr id).mpr h
    rw [if_pos hs]
    exact add_pos_of_pos_of_nonneg (hpos _) (hnonneg _ _)
  · have hs : (dictGet (chunkPairs tr) id).isSome = true :=
      (dictGet_chunkPairs_isSome tr id).mpr h
    rw [if_pos hs]
    exact add_pos_of_nonneg_of_pos (hnonneg _ _) (hpos _)

theorem fusedEntries_rrf_pos {k : ℕ} (hk : 1 ≤ k) (vo tto : String → ℚ)
    (vr tr : List SearchResult) :
    ∀ e ∈ fusedEntries vo tto vr tr k, 0 < e.rrf_score := by
  intro e he
  rw [fusedEntries, List.mem_map] at he
  obtain ⟨id, hid, rfl⟩ := he
  apply mkFusedEntry_rrf_pos hk
  rw [allChunkIds, mem_dedupFirst, List.mem_append] at hid
  exact hid

/-! ### Lemmas about the stable descending sort -/

theorem pySortDescBy_sorted {α : Type} (key : α → ℚ) (l : List α) :
    (pySortDescBy key l).Pairwise (fun a b => key b ≤ key a) := by
  letI : IsTotal α (fun a b => key b ≤ key a) := ⟨fun a b => le_total (key b) (key a)⟩
  letI : IsTrans α (fun a b => key b ≤ key a) :=
    ⟨fun a b c h1 h2 => le_trans h2 h1⟩
  exact List.sorted_insertionSort _ l

theorem pySortDescBy_eq_self {α : Type} {key : α → ℚ} {l : List α}
    (h : l.Pairwise (fun a b => key b ≤ key a)) : pySortDescBy key l = l :=
  List.Sorted.insertionSort_eq h

theorem pySortDescBy_map {α β : Type} (f : α → β) (keya : α → ℚ) (keyb : β → ℚ)
    (l : List α)
    (hk : ∀ a ∈ l, ∀ b ∈ l, (keya b ≤ keya a ↔ keyb (f b) ≤ keyb (f a))) :
    (pySortDescBy keya l).map f = pySortDescBy keyb (l.map f) :=
  List.map_insertionSort _ _ f l hk

theorem pySortDescBy_length {α : Type} (key : α → ℚ) (l : List α) :
    (pySortDescBy key l).length = l.length :=
  List.length_insertionSort _ l

theorem pySortDescBy_mem {α : Type} {key : α → ℚ} {l : List α} {x : α} :
    x ∈ pySortDescBy key l ↔ x ∈ l :=
  List.mem_insertionSort _

theorem fusedEntries_max_pos {k : ℕ} (hk : 1 ≤ k) (vo tto : String → ℚ)
    (vr tr : List SearchResult) (hne : fusedEntries vo tto vr tr k ≠ []) :
    0 < maxOrDefault 1 ((fusedEntries vo tto vr tr k).map (fun e => e.rrf_score)) := by
  apply maxOrDefault_pos
  · simpa using hne
  · intro x hx
    obtain ⟨e, he, rfl⟩ := List.mem_map.mp hx
    exact fusedEntries_rrf_pos hk vo tto vr tr e he

/-- The fused output is the map of `toSearchResult` over the entries sorted by
their raw (unscaled) RRF sums: the divide-by-max rescaling never changes the
comparison outcomes used by the final sort. -/
theorem hybrid_eq_sorted_entries (vo : String → List ℚ → ℚ) (tto : String → String → ℚ)
    (vr tr : List SearchResult) (q : String) (emb : List ℚ) {k : ℕ} (hk : 1 ≤ k) :
    hybrid_search_rrf vo tto vr tr q emb k =
      (pySortDescBy (fun e => e.rrf_score)
          (fusedEntries (fun id => vo id emb) (fun id => tto id q) vr tr k)).map
        (toSearchResult
          (maxOrDefault 1
            ((fusedEntries (fun id => vo id emb) (fun id => tto id q) vr tr k).map
              (fun e => e.rrf_score)))) := by
  set f := fun id => vo id emb with hf
  set g := fun id => tto id q with hg
  set entries := fusedEntries f g vr tr k with hentries
  set m := maxOrDefault 1 (entries.map (fun e => e.rrf_score)) with hm
  show pySortDescBy (fun r => r.score) (entries.map (toSearchResult m))
      = (pySortDescBy (fun e => e.rrf_score) entries).map (toSearchResult m)
  rcases eq_or_ne entries [] with he | he
  · rw [he]
    rfl
  · have hmp : 0 < m := fusedEntries_max_pos hk f g vr tr he
    refine (pySortDescBy_map (toSearchResult m) (fun e => e.rrf_score)
      (fun r => r.score) entries ?_).symm
    intro a _ b _
    show b.rrf_score ≤ a.rrf_score ↔
      (toSearchResult m b).score ≤ (toSearchResult m a).score
    simp only [toSearchResult, if_pos hmp]
    exact (div_le_div_iff_of_pos_right hmp).symm

theorem allChunkIds_empty_text {vr : List SearchResult} (h : (idsOf vr).Nodup) :
    allChunkIds vr [] = idsOf vr := by
  rw [allChunkIds]
  show dedupFirst (idsOf vr ++ []) = idsOf vr
  rw [List.append_nil]
  exact dedupFirst_eq_self h

theorem mkFusedEntry_rrf_empty_text (vo tto : String → ℚ) {vr : List SearchResult}
    (h : (idsOf vr).Nodup) (k : ℕ) {id : String} (hid : id ∈ idsOf vr) :
    (mkFusedEntry vo tto vr [] k id).rrf_score =
      1 / ((k : ℚ) + (List.indexOf id (idsOf vr) : ℚ)) := by
  simp only [mkFusedEntry]
  have hs : (dictGet (chunkPairs vr) id).isSome = true :=
    (dictGet_chunkPairs_isSome vr id).mpr hid
  have hrank : dictGet (rankPairs (idsOf vr)) id =
      some (0 + List.indexOf id (idsOf vr)) := by
    rw [rankPairs, dictGet_enumPairs_of_nodup h, if_pos hid]
  rw [if_pos hs, hrank]
  have htext : dictGet (chunkPairs ([] : List SearchResult)) id = none := rfl
  rw [htext]
  simp

theorem mkFusedEntry_text_score_empty_text (vo tto : String → ℚ)
    (vr : List SearchResult) (k : ℕ) (id : String) :
    (mkFusedEntry vo tto vr [] k id).text_score = some (tto id) := by
  simp only [mkFusedEntry]
  have htext : dictGet (chunkPairs ([] : List SearchResult)) id = none := rfl
  rw [htext]
  rfl

theorem fusedEntries_pairwise_empty_text (vo tto : String → ℚ)
    {vr : List SearchResult} (h : (idsOf vr).Nodup) {k : ℕ} (hk : 1 ≤ k) :
    (fusedEntries vo tto vr [] k).Pairwise
      (fun a b => b.rrf_score ≤ a.rrf_score) := by
  rw [fusedEntries, allChunkIds_empty_text h, List.pairwise_map, List.pairwise_iff_get]
  intro i j hij
  have hmi : (idsOf vr).get i ∈ idsOf vr := (idsOf vr).get_mem i.1 i.2
  have hmj : (idsOf vr).get j ∈ idsOf vr := (idsOf vr).get_mem j.1 j.2
  rw [mkFusedEntry_rrf_empty_text vo tto h k hmj,
    mkFusedEntry_rrf_empty_text vo tto h k hmi]
  have hidx_i : List.indexOf ((idsOf vr).get i) (idsOf vr) = (i : ℕ) := by
    have := List.indexOf_getElem h (i : ℕ) i.isLt
    simpa using this
  have hidx_j : List.indexOf ((idsOf vr).get j) (idsOf vr) = (j : ℕ) := by
    have := List.indexOf_getElem h (j : ℕ) j.isLt
    simpa using this
  rw [hidx_i, hidx_j]
  have hkq : (1 : ℚ) ≤ (k : ℚ) := by exact_mod_cast hk
  have hposi : (0 : ℚ) < (k : ℚ) + ((i : ℕ) : ℚ) := by
    have : (0 : ℚ) ≤ ((i : ℕ) : ℚ) := Nat.cast_nonneg _
    linarith
  apply one_div_le_one_div_of_le hposi
  have : ((i : ℕ) : ℚ) ≤ ((j : ℕ) : ℚ) := by
    exact_mod_cast le_of_lt hij
  linarith

/-! ### Further shared helper lemmas -/

theorem hybrid_search_rrf_length (vo : String → List ℚ → ℚ)
    (tto : String → String → ℚ) (vr tr : List SearchResult) (q : String)
    (emb : List ℚ) (k : ℕ) :
    (hybrid_search_rrf vo tto vr tr q emb k).length = (allChunkIds vr tr).length := by
  show (pySortDescBy _ _).length = _
  rw [pySortDescBy_length, List.length_map, fusedEntries, List.length_map]

theorem hybrid_search_rrf_empty_text_ids (vo : String → List ℚ → ℚ)
    (tto : String → String → ℚ) {vr : List SearchResult} (q : String)
    (emb : List ℚ) {k : ℕ} (hv : (idsOf vr).Nodup) (hk : 1 ≤ k) :
    (hybrid_search_rrf vo tto vr [] q emb k).map (fun r => r.chunk.id)
      = idsOf vr := by
  rw [hybrid_eq_sorted_entries vo tto vr [] q emb hk]
  rw [pySortDescBy_eq_self (fusedEntries_pairwise_empty_text _ _ hv hk)]
  rw [List.map_map]
  have h : ((fun r => r.chunk.id) ∘
      toSearchResult (maxOrDefault 1
        ((fusedEntries (fun id => vo id emb) (fun id => tto id q) vr [] k).map
          (fun e => e.rrf_score))))
      = fun e => e.chunk.id := rfl
  rw [h, fusedEntries_ids, allChunkIds_empty_text hv]

theorem hybrid_search_rrf_empty_text_scores (vo : String → List ℚ → ℚ)
    (tto : String → String → ℚ) (vr : List SearchResult) (q : String)
    (emb : List ℚ) (k : ℕ) :
    ∀ r ∈ hybrid_search_rrf vo tto vr [] q emb k,
      r.text_score = some (tto r.chunk.id q) := by
  intro r hr
  have hr2 : r ∈ (fusedEntries (fun id => vo id emb) (fun id => tto id q) vr [] k).map
      (toSearchResult (maxOrDefault 1
        ((fusedEntries (fun id => vo id emb) (fun id => tto id q) vr [] k).map
          (fun e => e.rrf_score)))) := pySortDescBy_mem.mp hr
  rw [List.mem_map] at hr2
  obtain ⟨e, he, rfl⟩ := hr2
  rw [fusedEntries, List.mem_map] at he
  obtain ⟨id, _, rfl⟩ := he
  simp only [toSearchResult]
  rw [mkFusedEntry_text_score_empty_text, mkFusedEntry_chunk_id]

theorem rrf_side_formula {rs : List SearchResult} (h : (idsOf rs).Nodup)
    (k : ℕ) (id : String) :
    (if (dictGet (chunkPairs rs) id).isSome then
        (1 : ℚ) / ((k : ℚ) + (((dictGet (rankPairs (idsOf rs)) id).getD 0 : ℕ) : ℚ))
      else 0)
      = if id ∈ idsOf rs then
          (1 : ℚ) / ((k : ℚ) + (List.indexOf id (idsOf rs) : ℚ))
        else 0 := by
  by_cases hid : id ∈ idsOf rs
  · have hs : (dictGet (chunkPairs rs) id).isSome = true :=
      (dictGet_chunkPairs_isSome rs id).mpr hid
    have hrank : dictGet (rankPairs (idsOf rs)) id =
        some (0 + List.indexOf id (idsOf rs)) := by
      rw [rankPairs, dictGet_enumPairs_of_nodup h, if_pos hid]
    rw [if_pos hs, if_pos hid, hrank]
    simp
  · have hs : (dictGet (chunkPairs rs) id).isSome = false := by
      rw [← Bool.not_eq_true]
      intro hc
      exact hid ((dictGet_chunkPairs_isSome rs id).mp hc)
    rw [if_neg (by simp [hs]), if_neg hid]

theorem mkFusedEntry_rrf_formula (vo tto : String → ℚ) {vr tr : List SearchResult}
    (hv : (idsOf vr).Nodup) (ht : (idsOf tr).Nodup) (k : ℕ) (id : String) :
    (mkFusedEntry vo tto vr tr k id).rrf_score = specCombinedScore vr tr k id := by
  show (if (dictGet (chunkPairs vr) id).isSome then
        (1 : ℚ) / ((k : ℚ) + (((dictGet (rankPairs (idsOf vr)) id).getD 0 : ℕ) : ℚ))
      else 0) +
      (if (dictGet (chunkPairs tr) id).isSome then
        (1 : ℚ) / ((k : ℚ) + (((dictGet (rankPairs (idsOf tr)) id).getD 0 : ℕ) : ℚ))
      else 0) = _
  rw [rrf_side_formula hv k id, rrf_side_formula ht k id]
  rfl

/-! ### Lemmas about scaling the vector list (rank-only sensitivity) -/

theorem dictGet_map_values {β γ : Type} (g : β → γ) (l : List (String × β))
    (key : String) :
    dictGet (l.map (fun p => (p.1, g p.2))) key = (dictGet l key).map g := by
  induction l with
  | nil => rfl
  | cons p t ih =>
    simp only [List.map_cons, dictGet, ih]
    cases dictGet t key with
    | some v => rfl
    | none =>
      simp only [Option.map_none, Option.elim_none]
      split
      · rfl
      · rfl

theorem idsOf_scale (c : ℚ) (rs : List SearchResult) :
    idsOf (scaleVectorScores c rs) = idsOf rs := by
  simp only [idsOf, scaleVectorScores, List.map_map]
  rfl

theorem chunkPairs_scale (c : ℚ) (rs : List SearchResult) :
    chunkPairs (scaleVectorScores c rs)
      = (chunkPairs rs).map (fun p => (p.1, scaleResult c p.2)) := by
  simp only [chunkPairs, scaleVectorScores, List.map_map]
  rfl

theorem allChunkIds_scale (c : ℚ) (vr tr : List SearchResult) :
    allChunkIds (scaleVectorScores c vr) tr = allChunkIds vr tr := by
  rw [allChunkIds, idsOf_scale, allChunkIds]

theorem mkFusedEntry_scale_chunk (c : ℚ) (vo tto : String → ℚ)
    (vr tr : List SearchResult) (k : ℕ) (id : String) :
    (mkFusedEntry vo tto (scaleVectorScores c vr) tr k id).chunk
      = (mkFusedEntry vo tto vr tr k id).chunk := by
  simp only [mkFusedEntry, chunkPairs_scale, dictGet_map_values, idsOf_scale]
  cases dictGet (chunkPairs vr) id with
  | some r => rfl
  | none => rfl

theorem mkFusedEntry_scale_text (c : ℚ) (vo tto : String → ℚ)
    (vr tr : List SearchResult) (k : ℕ) (id : String) :
    (mkFusedEntry vo tto (scaleVectorScores c vr) tr k id).text_score
      = (mkFusedEntry vo tto vr tr k id).text_score := by
  simp only [mkFusedEntry, chunkPairs_scale, dictGet_map_values, idsOf_scale]

theorem mkFusedEntry_scale_rrf (c : ℚ) (vo tto : String → ℚ)
    (vr tr : List SearchResult) (k : ℕ) (id : String) :
    (mkFusedEntry vo tto (scaleVectorScores c vr) tr k id).rrf_score
      = (mkFusedEntry vo tto vr tr k id).rrf_score := by
  simp only [mkFusedEntry, chunkPairs_scale, dictGet_map_values, idsOf_scale]
  cases dictGet (chunkPairs vr) id with
  | some r => rfl
  | none => rfl

/-! ### Claim theorems -/

/-- Claim C4 counterexample: with ten candidates after fusion and a requested
result limit of 3, the fusion engine returns all ten results, not three — it
has no truncation step and accepts no result-limit parameter at all. -/
theorem claim_C4_counterexample :
    (hybrid_search_rrf zeroVecOracle zeroTextOracle tenVec [] "q" [] 60).length = 10
    ∧ (10 : ℕ) ≠ 3 := by
  constructor
  · rw [hybrid_search_rrf_length]
    decide
  · decide

/-- Claim C4 (amended): the fusion engine sorts all fused results by
combined score, descending, with a stable sort — but it performs no
truncation: the returned list always has one result per distinct candidate
id in the union of the two input rankings, whatever limit the caller
requested. -/
theorem claim_C4_amended (vo : String → List ℚ → ℚ) (tto : String → String → ℚ)
    (vr tr : List SearchResult) (q : String) (emb : List ℚ) (k : ℕ) :
    (hybrid_search_rrf vo tto vr tr q emb k).Pairwise (fun a b => b.score ≤ a.score)
    ∧ (hybrid_search_rrf vo tto vr tr q emb k).length = (allChunkIds vr tr).length :=
  ⟨pySortDescBy_sorted (fun r : SearchResult => r.score) _,
   hybrid_search_rrf_length vo tto vr tr q emb k⟩

/-- Claim C5: determinism — the fusion engine is a pure function of its
ranked lists, parameters, and fallback-lookup behaviour: two invocations
with equal inputs produce equal combined scores for every candidate and the
identical final ordering. -/
theorem claim_C5_deterministic (vo₁ vo₂ : String → List ℚ → ℚ)
    (tto₁ tto₂ : String → String → ℚ) (vr₁ vr₂ tr₁ tr₂ : List SearchResult)
    (q₁ q₂ : String) (e₁ e₂ : List ℚ) (k₁ k₂ : ℕ)
    (hvo : vo₁ = vo₂) (htto : tto₁ = tto₂) (hvr : vr₁ = vr₂) (htr : tr₁ = tr₂)
    (hq : q₁ = q₂) (he : e₁ = e₂) (hk : k₁ = k₂) :
    hybrid_search_rrf vo₁ tto₁ vr₁ tr₁ q₁ e₁ k₁
      = hybrid_search_rrf vo₂ tto₂ vr₂ tr₂ q₂ e₂ k₂ := by
  subst hvo htto hvr htr hq he hk
  rfl

/-- Witness for C5 at a concrete input. -/
theorem claim_C5_witness :
    hybrid_search_rrf zeroVecOracle zeroTextOracle vListXY tListYZ "q" [] 60
      = hybrid_search_rrf zeroVecOracle zeroTextOracle vListXY tListYZ "q" [] 60 :=
  claim_C5_deterministic zeroVecOracle zeroVecOracle zeroTextOracle zeroTextOracle
    vListXY vListXY tListYZ tListYZ "q" "q" [] [] 60 60 rfl rfl rfl rfl rfl rfl rfl

/-- Claim C8: fusing two empty ranked lists returns the empty result list
without error, and the text-search result processing of an empty pipeline
output is the empty result list: a search that finds nothing yields a
well-formed empty result set rather than an error. -/
theorem claim_C8_empty_inputs (vo : String → List ℚ → ℚ)
    (tto : String → String → ℚ) (q : String) (emb : List ℚ) (k : ℕ) :
    hybrid_search_rrf vo tto [] [] q emb k = []
    ∧ processTextSearchResults [] = [] :=
  ⟨rfl, rfl⟩

/-- Claim C9 counterexample: no field of the hybrid request model is an
enumerated fusion-mode option with values rrf, weighted, union,
intersection. -/
theorem claim_C9_counterexample :
    ¬ ∃ p ∈ hybridSearchRequestFields,
        p.2 = PFieldType.enumF ["rrf", "weighted", "union", "intersection"] := by
  decide

/-- Claim C9 (amended): the per-request configuration surface of the hybrid
endpoint consists exactly of query, limit, rrf_k, vector_weight,
text_weight and num_candidates_multiplier; none of its fields is an
enumerated choice, so no combination strategy can be selected per request —
only the single RRF strategy is exposed. -/
theorem claim_C9_amended :
    hybridSearchRequestFields =
      [("query", PFieldType.strF), ("limit", PFieldType.intF),
       ("rrf_k", PFieldType.intF), ("vector_weight", PFieldType.floatF),
       ("text_weight", PFieldType.floatF),
       ("num_candidates_multiplier", PFieldType.intF)]
    ∧ ∀ p ∈ hybridSearchRequestFields,
        p.2 = PFieldType.strF ∨ p.2 = PFieldType.intF ∨ p.2 = PFieldType.floatF := by
  decide

/-- Claim C10: the hybrid route attaches debug information to its response
exactly when the caller opts in via the X-Debug header equal to "true"
(case-insensitively); a caller who does not opt in never receives debug
information in any outcome of the route. -/
theorem claim_C10_debug_iff (req : HybridSearchRequest) (xDebug : Option String)
    (coll : Bool) (emb : List ℚ) (body : List SearchResultN) :
    hasDebugInfo (hybridSearchRoute req xDebug coll emb body)
      = getDebugFlag xDebug := by
  have hcall : callHybridSearchRRF routeHybridKwargs body =
      .error "hybrid_search_rrf() got an unexpected keyword argument rrf_k" := rfl
  simp only [hybridSearchRoute, hcall, hybridExceptBlock]
  cases hx : getDebugFlag xDebug <;> cases coll <;> cases he : emb.isEmpty <;>
    simp [hasDebugInfo, hx]

/-- Claim C2 counterexample: a valid hybrid request without the X-Debug
header does not get a well-formed empty response — the TypeError from the
unexpected `rrf_k` keyword reaches the except block, which itself fails
assigning into a `None` debug_info, so the request ends in an unhandled
server error. -/
theorem claim_C2_counterexample :
    validHybridRequest { query := "q" }
    ∧ hybridSearchRoute { query := "q" } none true [1] [] =
        RouteOutcome.serverError := by
  constructor
  · norm_num [validHybridRequest]
  · rfl

/-- Claim C2 (amended): for every request reaching the repository call (the
collection is available and an embedding was produced), the route passes
the keyword argument rrf_k, which `hybrid_search_rrf` of `search_new.py`
does not accept, so the call raises TypeError and the repository body —
the fusion pipeline — never runs (the outcome is independent of it).  When
the caller opted into debug mode, the exception is caught and a well-formed
response with an empty result list and the error text in debug_info is
returned; when the caller did not opt in, the exception handler itself
fails on the `None` debug_info and the request ends in an unhandled server
error instead of a well-formed response. -/
theorem claim_C2_amended (req : HybridSearchRequest) (xDebug : Option String)
    (emb : List ℚ) (body bodyAlt : List SearchResultN) (hne : emb ≠ []) :
    (hybridSearchRoute req xDebug true emb body
        = hybridSearchRoute req xDebug true emb bodyAlt)
    ∧ callHybridSearchRRF routeHybridKwargs body =
        .error "hybrid_search_rrf() got an unexpected keyword argument rrf_k"
    ∧ (getDebugFlag xDebug = true →
        hybridSearchRoute req xDebug true emb body =
          .response req.query "hybrid_rrf" [] 0 (some
            [("request", req.query),
             ("error", "Error in hybrid search: hybrid_search_rrf() got an unexpected keyword argument rrf_k"),
             ("traceback", "Error in hybrid search: hybrid_search_rrf() got an unexpected keyword argument rrf_k")]))
    ∧ (getDebugFlag xDebug = false →
        hybridSearchRoute req xDebug true emb body = RouteOutcome.serverError) := by
  have hcall : ∀ b : List SearchResultN, callHybridSearchRRF routeHybridKwargs b =
      .error "hybrid_search_rrf() got an unexpected keyword argument rrf_k" :=
    fun _ => rfl
  have hemb : emb.isEmpty = false := by
    cases emb with
    | nil => exact absurd rfl hne
    | cons a t => rfl
  refine ⟨?_, hcall body, ?_, ?_⟩
  · simp only [hybridSearchRoute, hemb, hcall, hybridExceptBlock]
  · intro hx
    simp only [hybridSearchRoute, hemb, hcall, hybridExceptBlock, hx]
    rfl
  · intro hx
    simp only [hybridSearchRoute, hemb, hcall, hybridExceptBlock, hx]
    rfl

/-- Witness for C2 at a concrete opted-in request. -/
theorem claim_C2_witness :
    (([1] : List ℚ) ≠ [])
    ∧ ((hybridSearchRoute { query := "q" } (some "true") true [1] []
          = hybridSearchRoute { query := "q" } (some "true") true [1] [])
      ∧ callHybridSearchRRF routeHybridKwargs [] =
          .error "hybrid_search_rrf() got an unexpected keyword argument rrf_k"
      ∧ (getDebugFlag (some "true") = true →
          hybridSearchRoute { query := "q" } (some "true") true [1] [] =
            .response "q" "hybrid_rrf" [] 0 (some
              [("request", "q"),
               ("error", "Error in hybrid search: hybrid_search_rrf() got an unexpected keyword argument rrf_k"),
               ("traceback", "Error in hybrid search: hybrid_search_rrf() got an unexpected keyword argument rrf_k")]))
      ∧ (getDebugFlag (some "true") = false →
          hybridSearchRoute { query := "q" } (some "true") true [1] [] =
            RouteOutcome.serverError)) :=
  ⟨by decide, claim_C2_amended { query := "q" } (some "true") [1] [] [] (by decide)⟩

/-- Claim C1 counterexample: in the concrete scenario (rrf_k 60, VectorList
[X, Y], TextList [Y, Z]) the engine's unscaled combined scores carry no
weight factors — X scores 1/60, not 0.5·(1/60) as the claim predicts with
vector_weight = 0.5. -/
theorem claim_C1_counterexample :
    (fusedEntries (fun _ => 0) (fun _ => 0) vListXY tListYZ 60).map
      (fun e => (e.chunk.id, e.rrf_score)) =
      [("X", 1/60), ("Y", 1/61 + 1/60), ("Z", 1/61)]
    ∧ ¬ ((1 : ℚ)/60 = (1/2) * (1/60)) := by
  constructor
  · simp [fusedEntries, mkFusedEntry, allChunkIds, dedupFirst, dedupFirstAux, idsOf,
      chunkPairs, rankPairs, enumPairs, dictGet, vListXY, tListYZ]
    norm_num
  · norm_num

/-- Claim C1 (amended): for every pair of duplicate-free ranked lists, each
fused entry's combined (pre-scale) score is the unweighted reciprocal-rank
sum — `1/(rrf_k + r_v)` when the id occurs at 0-based rank `r_v` in the
vector list (else 0) plus `1/(rrf_k + r_t)` when it occurs at 0-based rank
`r_t` in the text list (else 0); no weight factors are applied.  In the
concrete scenario the unscaled scores are X = 1/60, Y = 1/61 + 1/60,
Z = 1/61, and the final order is Y, X, Z. -/
theorem claim_C1_amended (vo tto : String → ℚ) (vr tr : List SearchResult)
    (k : ℕ) (hv : (idsOf vr).Nodup) (ht : (idsOf tr).Nodup) :
    (∀ e ∈ fusedEntries vo tto vr tr k,
        e.rrf_score = specCombinedScore vr tr k e.chunk.id)
    ∧ (hybrid_search_rrf (fun _ _ => 0) (fun _ _ => 0) vListXY tListYZ "q" [] 60).map
        (fun r => r.chunk.id) = ["Y", "X", "Z"] := by
  constructor
  · intro e he
    rw [fusedEntries, List.mem_map] at he
    obtain ⟨id, _, rfl⟩ := he
    rw [mkFusedEntry_chunk_id]
    exact mkFusedEntry_rrf_formula vo tto hv ht k id
  · simp [hybrid_search_rrf, fusedEntries, mkFusedEntry, allChunkIds, dedupFirst,
      dedupFirstAux, idsOf, chunkPairs, rankPairs, enumPairs, dictGet, vListXY,
      tListYZ, maxOrDefault, toSearchResult, pySortDescBy, List.insertionSort,
      List.orderedInsert, max_def]
    norm_num

/-- Witness for C1 at the concrete scenario lists. -/
theorem claim_C1_witness :
    ((idsOf vListXY).Nodup ∧ (idsOf tListYZ).Nodup)
    ∧ ((∀ e ∈ fusedEntries (fun _ => 0) (fun _ => 0) vListXY tListYZ 60,
          e.rrf_score = specCombinedScore vListXY tListYZ 60 e.chunk.id)
      ∧ (hybrid_search_rrf (fun _ _ => 0) (fun _ _ => 0) vListXY tListYZ "q" [] 60).map
          (fun r => r.chunk.id) = ["Y", "X", "Z"]) :=
  ⟨⟨by decide, by decide⟩,
   claim_C1_amended (fun _ => 0) (fun _ => 0) vListXY tListYZ 60 (by decide) (by decide)⟩

/-- Claim C3 counterexample: fusing a one-element vector list with an empty
text list against a database in which the fallback text lookup scores 0.5
returns that result with text component 0.5, not 0. -/
theorem claim_C3_counterexample :
    (hybrid_search_rrf zeroVecOracle halfTextOracle oneVecA [] "q" [] 60).map
      (fun r => r.text_score) = [some (1/2)]
    ∧ some ((1 : ℚ)/2) ≠ some (0 : ℚ) := by
  constructor
  · simp [hybrid_search_rrf, fusedEntries, mkFusedEntry, allChunkIds, dedupFirst,
      dedupFirstAux, idsOf, chunkPairs, rankPairs, enumPairs, dictGet, oneVecA,
      zeroVecOracle, halfTextOracle, maxOrDefault, toSearchResult, pySortDescBy,
      List.insertionSort, List.orderedInsert, max_def]
  · norm_num

/-- Claim C3 (amended): fusing a non-empty, duplicate-free VectorList with an
empty TextList yields the pure vector RRF ranking (the output order is the
vector list's order), but each returned result's text component equals the
fallback text-score lookup for its id — it is 0 only when that lookup finds
nothing. -/
theorem claim_C3_amended (vo : String → List ℚ → ℚ) (tto : String → String → ℚ)
    (vr : List SearchResult) (q : String) (emb : List ℚ) (k : ℕ)
    (hv : (idsOf vr).Nodup) (hk : 1 ≤ k) :
    ((hybrid_search_rrf vo tto vr [] q emb k).map (fun r => r.chunk.id) = idsOf vr)
    ∧ ∀ r ∈ hybrid_search_rrf vo tto vr [] q emb k,
        r.text_score = some (tto r.chunk.id q) :=
  ⟨hybrid_search_rrf_empty_text_ids vo tto q emb hv hk,
   hybrid_search_rrf_empty_text_scores vo tto vr q emb k⟩

/-- Witness for C3 at a concrete one-element vector list. -/
theorem claim_C3_witness :
    ((idsOf oneVecA).Nodup ∧ 1 ≤ 60)
    ∧ (((hybrid_search_rrf zeroVecOracle halfTextOracle oneVecA [] "q" [] 60).map
          (fun r => r.chunk.id) = idsOf oneVecA)
      ∧ ∀ r ∈ hybrid_search_rrf zeroVecOracle halfTextOracle oneVecA [] "q" [] 60,
          r.text_score = some (halfTextOracle r.chunk.id "q")) :=
  ⟨⟨by decide, by decide⟩,
   claim_C3_amended zeroVecOracle halfTextOracle oneVecA "q" [] 60 (by decide) (by decide)⟩

/-- Claim C6: the divide-by-max rescaling of the combined score is
presentation-only — the fused output order is the order obtained by sorting
the fused entries by their raw, unscaled RRF sums. -/
theorem claim_C6_rescaling_order (vo : String → List ℚ → ℚ)
    (tto : String → String → ℚ) (vr tr : List SearchResult) (q : String)
    (emb : List ℚ) (k : ℕ) (hk : 1 ≤ k) :
    (hybrid_search_rrf vo tto vr tr q emb k).map (fun r => r.chunk.id)
      = (pySortDescBy (fun e => e.rrf_score)
          (fusedEntries (fun id => vo id emb) (fun id => tto id q) vr tr k)).map
          (fun e => e.chunk.id) := by
  rw [hybrid_eq_sorted_entries vo tto vr tr q emb hk, List.map_map]
  rfl

/-- Witness for C6 at the concrete scenario lists. -/
theorem claim_C6_witness :
    (1 ≤ 60)
    ∧ (hybrid_search_rrf zeroVecOracle zeroTextOracle vListXY tListYZ "q" [] 60).map
        (fun r => r.chunk.id)
      = (pySortDescBy (fun e => e.rrf_score)
          (fusedEntries (fun id => zeroVecOracle id []) (fun id => zeroTextOracle id "q")
            vListXY tListYZ 60)).map (fun e => e.chunk.id) :=
  ⟨by decide,
   claim_C6_rescaling_order zeroVecOracle zeroTextOracle vListXY tListYZ "q" [] 60 (by decide)⟩

theorem pySortDescBy_map_eq_of_map_eq {α β : Type} (f : α → β) (keya : α → ℚ)
    (keyb : β → ℚ) {l₁ l₂ : List α}
    (h1 : ∀ a ∈ l₁, ∀ b ∈ l₁, (keya b ≤ keya a ↔ keyb (f b) ≤ keyb (f a)))
    (h2 : ∀ a ∈ l₂, ∀ b ∈ l₂, (keya b ≤ keya a ↔ keyb (f b) ≤ keyb (f a)))
    (h : l₁.map f = l₂.map f) :
    (pySortDescBy keya l₁).map f = (pySortDescBy keya l₂).map f := by
  rw [pySortDescBy_map f keya keyb l₁ h1, pySortDescBy_map f keya keyb l₂ h2, h]

/-- Claim C7 counterexample: multiplying the vector list's raw scores by 100
changes the returned results — the reported vector-component provenance
scores scale along (90 instead of 0.9), so the fused output is not
identical. -/
theorem claim_C7_counterexample :
    (hybrid_search_rrf zeroVecOracle zeroTextOracle (scaleVectorScores 100 oneVecA)
        [] "q" [] 60).map (fun r => r.vector_score) = [some (90 : ℚ)]
    ∧ (hybrid_search_rrf zeroVecOracle zeroTextOracle oneVecA [] "q" [] 60).map
        (fun r => r.vector_score) = [some ((9 : ℚ)/10)]
    ∧ some (90 : ℚ) ≠ some ((9 : ℚ)/10) := by
  refine ⟨?_, ?_, by norm_num⟩
  · simp [hybrid_search_rrf, fusedEntries, mkFusedEntry, allChunkIds, dedupFirst,
      dedupFirstAux, idsOf, chunkPairs, rankPairs, enumPairs, dictGet, oneVecA,
      scaleVectorScores, scaleResult, zeroVecOracle, zeroTextOracle, maxOrDefault,
      toSearchResult, pySortDescBy, List.insertionSort, List.orderedInsert, max_def]
    norm_num
  · simp [hybrid_search_rrf, fusedEntries, mkFusedEntry, allChunkIds, dedupFirst,
      dedupFirstAux, idsOf, chunkPairs, rankPairs, enumPairs, dictGet, oneVecA,
      zeroVecOracle, zeroTextOracle, maxOrDefault, toSearchResult, pySortDescBy,
      List.insertionSort, List.orderedInsert, max_def]

/-- Claim C7 (amended): in RRF mode, multiplying every raw score of the
VectorList by one positive constant leaves the ranking and every combined
and text-component score unchanged — the RRF contributions depend only on
rank positions; only the reported raw vector-component provenance scores
scale along with the input. -/
theorem claim_C7_amended (c : ℚ) (vo : String → List ℚ → ℚ)
    (tto : String → String → ℚ) (vr tr : List SearchResult) (q : String)
    (emb : List ℚ) (k : ℕ) (hc : 0 < c) (hk : 1 ≤ k) :
    (hybrid_search_rrf vo tto (scaleVectorScores c vr) tr q emb k).map
        (fun r => (r.chunk.id, r.score, r.text_score))
      = (hybrid_search_rrf vo tto vr tr q emb k).map
        (fun r => (r.chunk.id, r.score, r.text_score)) := by
  have hA := allChunkIds_scale c vr tr
  have hmap_rrf : (fusedEntries (fun id => vo id emb) (fun id => tto id q)
        (scaleVectorScores c vr) tr k).map (fun e => e.rrf_score)
      = (fusedEntries (fun id => vo id emb) (fun id => tto id q) vr tr k).map
        (fun e => e.rrf_score) := by
    rw [fusedEntries, fusedEntries, hA, List.map_map, List.map_map]
    exact List.map_congr_left (fun id _ =>
      mkFusedEntry_scale_rrf c (fun id => vo id emb) (fun id => tto id q) vr tr k id)
  rw [hybrid_eq_sorted_entries vo tto (scaleVectorScores c vr) tr q emb hk,
      hybrid_eq_sorted_entries vo tto vr tr q emb hk, List.map_map, List.map_map,
      hmap_rrf]
  apply pySortDescBy_map_eq_of_map_eq _ _ (fun t => t.2.1)
  · intro a ha b hb
    have hne : fusedEntries (fun id => vo id emb) (fun id => tto id q)
        (scaleVectorScores c vr) tr k ≠ [] := List.ne_nil_of_mem ha
    have hmpos : 0 < maxOrDefault 1
        ((fusedEntries (fun id => vo id emb) (fun id => tto id q) vr tr k).map
          (fun e => e.rrf_score)) := by
      rw [← hmap_rrf]
      exact fusedEntries_max_pos hk _ _ _ _ hne
    show b.rrf_score ≤ a.rrf_score ↔ _
    simp only [Function.comp, toSearchResult, if_pos hmpos]
    exact (div_le_div_iff_of_pos_right hmpos).symm
  · intro a ha b hb
    have hne : fusedEntries (fun id => vo id emb) (fun id => tto id q) vr tr k ≠ [] :=
      List.ne_nil_of_mem ha
    have hmpos : 0 < maxOrDefault 1
        ((fusedEntries (fun id => vo id emb) (fun id => tto id q) vr tr k).map
          (fun e => e.rrf_score)) :=
      fusedEntries_max_pos hk _ _ _ _ hne
    show b.rrf_score ≤ a.rrf_score ↔ _
    simp only [Function.comp, toSearchResult, if_pos hmpos]
    exact (div_le_div_iff_of_pos_right hmpos).symm
  · simp only [fusedEntries, hA, List.map_map]
    apply List.map_congr_left
    intro id _
    have h1 := mkFusedEntry_scale_chunk c (fun id => vo id emb) (fun id => tto id q) vr tr k id
    have h2 := mkFusedEntry_scale_text c (fun id => vo id emb) (fun id => tto id q) vr tr k id
    have h3 := mkFusedEntry_scale_rrf c (fun id => vo id emb) (fun id => tto id q) vr tr k id
    simp only [Function.comp, toSearchResult, h1, h2, h3]

/-- Witness for C7 at a concrete scaling factor and concrete lists. -/
theorem claim_C7_witness :
    ((0 : ℚ) < 100 ∧ 1 ≤ 60)
    ∧ (hybrid_search_rrf zeroVecOracle zeroTextOracle (scaleVectorScores 100 oneVecA)
          [] "q" [] 60).map (fun r => (r.chunk.id, r.score, r.text_score))
      = (hybrid_search_rrf zeroVecOracle zeroTextOracle oneVecA [] "q" [] 60).map
          (fun r => (r.chunk.id, r.score, r.text_score)) :=
  ⟨⟨by decide, by decide⟩,
   claim_C7_amended 100 zeroVecOracle zeroTextOracle oneVecA [] "q" [] 60
     (by decide) (by decide)⟩
